import Mathlib

/-!
Shallow embedding of `src/yaml_to_html_converter.py` (class `APISpecConverter`).

The file models the two algorithmic components of the repository:

* `format_schema_as_json` (source lines 306-371): the recursive renderer that
  turns an OpenAPI/Swagger schema dictionary into an indented pseudo-JSON text.
* `extract_tags` (source lines 65-109) and `organize_endpoints_by_tag`
  (source lines 168-200): tag collection and grouping of endpoints by tag.

A schema dictionary is modelled by the inductive `Schema`, recording exactly
the keys the source reads (`type`, `properties`, `required`, `items`,
`description`) plus a flag `extra` meaning "the dictionary has further keys",
which only matters for Python truthiness (`if not schema`).  `properties` is an
ordered association list, matching insertion-ordered Python dicts.
-/

inductive Schema : Type where
  | mk : Option String → Option (List (String × Schema)) → Option (List String) →
         Option Schema → Option String → Bool → Schema

/-- Reading `schema.get('type')` / `'type' in schema`. -/
def Schema.type? : Schema → Option String
  | .mk t _ _ _ _ _ => t

/-- Reading `schema['properties']` / `'properties' in schema`. -/
def Schema.properties? : Schema → Option (List (String × Schema))
  | .mk _ p _ _ _ _ => p

/-- Reading `schema.get('required', [])`: `none` models an absent key. -/
def Schema.required? : Schema → Option (List String)
  | .mk _ _ r _ _ _ => r

/-- Reading `schema['items']` / `'items' in schema`. -/
def Schema.items? : Schema → Option Schema
  | .mk _ _ _ i _ _ => i

/-- Reading `prop_schema.get('description', '')`: `none` models an absent key. -/
def Schema.description? : Schema → Option String
  | .mk _ _ _ _ d _ => d

/-- Python truthiness of the schema dict: `if not schema` is taken exactly when
the dictionary has no keys at all (`extra` records unread keys). -/
def Schema.isEmptyDict : Schema → Bool
  | .mk t p r i d extra => t.isNone && p.isNone && r.isNone && i.isNone && d.isNone && !extra

/-- Replace the `description` entry of a schema dictionary, leaving every other
key unchanged (used to state that some render branches ignore it). -/
def Schema.setDescription : Schema → Option String → Schema
  | .mk t p r i _ extra, d => .mk t p r i d extra

/-- The helper `_indent(level) = "  " * level` of `format_schema_as_json`. -/
def _indent : Nat → String
  | 0 => ""
  | n + 1 => "  " ++ _indent n

/-- The `if i < len(properties) - 1: line += ","` decoration of the property
lines: a trailing comma on every element except the last. -/
def addCommas : List String → List String
  | [] => []
  | [x] => [x]
  | x :: y :: rest => (x ++ ",") :: addCommas (y :: rest)

/-- The primitive/unknown property branch of `format_schema_as_json`
(source lines 342-349): `type_info = (type)`, then the `// description`
comment when the description is non-empty, then the `*` marker when the
property name occurs in the enclosing object's `required` list. -/
def primProp (l : Nat) (required : List String) (name : String) (psch : Schema) : String :=
  let propType := psch.type?.getD "any"
  let description := (psch.description?).getD ""
  let isRequired := required.contains name
  _indent (l + 1) ++ "\"" ++ name ++ "\": " ++
    ("(" ++ propType ++ ")" ++
      (if description = "" then "" else " // " ++ description) ++
      (if isRequired then " *" else ""))

mutual

/-- The full `format_schema_as_json(schema, indent_level)` on a schema value
that is not Python `None`: the `if not schema: return "{}"` guard followed by
`'\n'.join(result)`. -/
def formatSchemaCore (s : Schema) (l : Nat) : String :=
  if s.isEmptyDict then "\x7b\x7d" else String.intercalate "\n" (formatResult s l)
termination_by 2 * sizeOf s + 1

/-- The `result` list built by `format_schema_as_json` on a truthy schema:
`(any)` when `'type'` is absent; the object block when `type == 'object'` and
`'properties'` is present; the array forms when `type == 'array'` and
`'items'` is present; otherwise the literal `(<type>)`. -/
def formatResult : Schema → Nat → List String
  | .mk none _ _ _ _ _, _ => ["(any)"]
  | .mk (some t) p? r? i? _ _, l =>
    if t == "object" then
      match p? with
      | some ps =>
        "\x7b" :: (addCommas (propLines l ((r?).getD []) ps) ++ [_indent l ++ "\x7d"])
      | none => ["(" ++ t ++ ")"]
    else if t == "array" then
      match i? with
      | some items => [arrayBlock items l]
      | none => ["(" ++ t ++ ")"]
    else ["(" ++ t ++ ")"]
termination_by s _ => 2 * sizeOf s

/-- The top-level array branch (source lines 356-365): an object item type is
rendered by a recursive call at the *same* indent level `l`, wrapped as
`[\n<indent l+1><nested>\n<indent l>]`; a primitive item type renders
`[ (<itemType>) ]`; an untyped item renders `[ (any) ]`. -/
def arrayBlock (items : Schema) (l : Nat) : String :=
  match items.type? with
  | some it =>
    if it == "object" then
      "[\n" ++ _indent (l + 1) ++ formatSchemaCore items l ++ "\n" ++ _indent l ++ "]"
    else "[ (" ++ it ++ ") ]"
  | none => "[ (any) ]"
termination_by 2 * sizeOf items + 2

/-- The loop over `properties.items()` (before comma decoration): one rendered
line per property, in declared order. -/
def propLines (l : Nat) (required : List String) : List (String × Schema) → List String
  | [] => []
  | (name, psch) :: rest => propLine l required name psch :: propLines l required rest
termination_by ps => 2 * sizeOf ps

/-- One property line of an object block (source lines 322-349), before the
trailing-comma decoration.  Branches exactly as the source: nested object
(`type == 'object'` and `'properties'` present) recurses at `l+1`; array with
`'items'` renders the three item forms (object items recurse at `l+2`);
everything else is the primitive/unknown branch `primProp`.  The source tests
`'items' in prop_schema` inside the `elif`; here the match on `items?` is
hoisted outside the `type == 'array'` test, which is equivalent because both
failure paths fall through to the primitive branch. -/
def propLine (l : Nat) (required : List String) (name : String) (psch : Schema) : String :=
  if psch.type?.getD "any" == "object" && (psch.properties?).isSome then
    _indent (l + 1) ++ "\"" ++ name ++ "\": " ++ formatSchemaCore psch (l + 1)
  else
    match h : psch.items? with
    | some items =>
      if psch.type?.getD "any" == "array" then
        match items.type? with
        | some it =>
          if it == "object" then
            _indent (l + 1) ++ "\"" ++ name ++ "\": " ++
              ("[\n" ++ _indent (l + 2) ++ formatSchemaCore items (l + 2) ++ "\n" ++
                _indent (l + 1) ++ "]")
          else
            _indent (l + 1) ++ "\"" ++ name ++ "\": " ++ ("[ (" ++ it ++ ") ]")
        | none => _indent (l + 1) ++ "\"" ++ name ++ "\": " ++ "[ (any) ]"
      else primProp l required name psch
    | none => primProp l required name psch
termination_by 2 * sizeOf psch + 2
decreasing_by
  all_goals simp_wf
  all_goals
    (obtain ⟨t, p, r, i, d, e⟩ := psch; simp [Schema.items?] at h; subst h; simp; omega)

end

/-- `format_schema_as_json(schema, indent_level)` including a `None` schema
argument (`if not schema: return "{}"`). -/
def format_schema_as_json : Option Schema → Nat → String
  | none, _ => "\x7b\x7d"
  | some s, l => formatSchemaCore s l

/-!
Tag collection and endpoint grouping (`extract_tags`, source lines 65-109, and
`organize_endpoints_by_tag`, source lines 168-200).

An operation is one `(path, method)` entry of the `paths` mapping; `ops` lists
them in the source's traversal order (outer loop over paths, inner loop over
methods).  `extract_tags` iterates the Python *set* `endpoint_tags`; a set's
iteration order is unspecified (hash-dependent), so it is modelled by an extra
parameter `order`, constrained by `validOrder` to enumerate exactly the
distinct endpoint tags.  Within one process the order is fixed, so the same
`order` is shared by the `extract_tags` call inside
`organize_endpoints_by_tag`.
-/

/-- One endpoint operation: the fields of one `paths[path][method]` entry that
tag collection and grouping read. -/
structure Op where
  path : String
  method : String
  summary : String
  description : String
  tags : List String
deriving DecidableEq, Repr

/-- The `endpoint_info` record built by `organize_endpoints_by_tag`
(source lines 180-185): path, upper-cased method, summary, description. -/
structure EndpointInfo where
  path : String
  method : String
  summary : String
  description : String
deriving DecidableEq, Repr

/-- Python `str.upper()` on the underlying character list (the HTTP verbs the
source upper-cases are plain ASCII). -/
def pyUpper (s : String) : String :=
  ⟨s.data.map Char.toUpper⟩

/-- Building `endpoint_info` from an operation (`method.upper()`). -/
def Op.info (o : Op) : EndpointInfo :=
  ⟨o.path, pyUpper o.method, o.summary, o.description⟩

/-- Python dict assignment `d[k] = v` on an insertion-ordered association
list: an existing key keeps its position and gets the new value, a new key is
appended. -/
def dictSet {α : Type} (d : List (String × α)) (k : String) (v : α) : List (String × α) :=
  if d.any (fun p => p.1 == k) then
    d.map (fun p => if p.1 == k then (k, v) else p)
  else d ++ [(k, v)]

/-- The dict comprehension
`{tag['name']: tag.get('description', '') for tag in spec_data.get('tags', [])}`
over the declared tag list (already projected to name/description pairs). -/
def dictOfPairs (g : List (String × String)) : List (String × String) :=
  g.foldl (fun d p => dictSet d p.1 p.2) []

/-- Every tag name occurring on some operation, with multiplicity, in
traversal order: the elements fed to `endpoint_tags.update(tags)`. -/
def allEndpointTags (ops : List Op) : List String :=
  ops.foldr (fun o acc => o.tags ++ acc) []

/-- The `has_untagged` flag: some operation has an empty tag list. -/
def hasUntagged (ops : List Op) : Bool :=
  ops.any (fun o => o.tags.isEmpty)

/-- Fixed name of the synthetic fallback tag. -/
def uncategorizedName : String := "Uncategorized"

/-- Fixed description of the synthetic fallback tag (source line 106). -/
def uncategorizedDescription : String := "Operations without specific categorization"

/-- `order` is a legitimate iteration order of the Python set `endpoint_tags`:
no repetitions, and exactly the tag names occurring on operations. -/
def validOrder (order : List String) (ops : List Op) : Prop :=
  order.Nodup ∧ (∀ x ∈ order, x ∈ allEndpointTags ops) ∧
    (∀ x ∈ allEndpointTags ops, x ∈ order)

instance (order : List String) (ops : List Op) : Decidable (validOrder order ops) := by
  unfold validOrder; infer_instance

/-- `extract_tags` (source lines 65-109): the globally declared tags (as an
insertion-ordered dict), then every endpoint tag not globally declared with an
empty description (in set-iteration order `order`), then the synthetic
`Uncategorized` entry when some operation is untagged. -/
def extract_tags (globalTags : List (String × String)) (ops : List Op)
    (order : List String) : List (String × String) :=
  let g := dictOfPairs globalTags
  g ++ (order.filter (fun n => !(g.any (fun p => p.1 == n)))).map (fun n => (n, "")) ++
    (if hasUntagged ops then [(uncategorizedName, uncategorizedDescription)] else [])

/-- Lookup in an association list, Python-dict style (first matching key). -/
def lookupB {α : Type} : List (String × α) → String → Option α
  | [], _ => none
  | p :: rest, k => if p.1 == k then some p.2 else lookupB rest k

/-- Initialisation loop of `organize_endpoints_by_tag` (source lines 173-175):
`tag_endpoints[tag['name']] = []` for every collected tag. -/
def initBuckets (names : List String) : List (String × List EndpointInfo) :=
  names.foldl (fun b n => dictSet b n []) []

/-- `tag_endpoints[tag].append(endpoint_info)` guarded by
`if tag in tag_endpoints` (a missing key leaves everything unchanged). -/
def bucketAppend (b : List (String × List EndpointInfo)) (k : String)
    (e : EndpointInfo) : List (String × List EndpointInfo) :=
  b.map (fun p => if p.1 == k then (p.1, p.2 ++ [e]) else p)

/-- The grouping loop of `organize_endpoints_by_tag` (source lines 178-197):
an operation with tags is appended to the bucket of each of its tags that has
a bucket; an untagged operation is appended to the `Uncategorized` bucket
(which exists by construction whenever an untagged operation exists). -/
def groupBuckets (globalTags : List (String × String)) (ops : List Op)
    (order : List String) : List (String × List EndpointInfo) :=
  ops.foldl
    (fun b o =>
      if o.tags.isEmpty then bucketAppend b uncategorizedName o.info
      else o.tags.foldl (fun b t => bucketAppend b t o.info) b)
    (initBuckets ((extract_tags globalTags ops order).map Prod.fst))

/-- `organize_endpoints_by_tag` (source lines 168-200): group, then drop the
buckets left empty (`{tag: endpoints for ... if endpoints}`). -/
def organize_endpoints_by_tag (globalTags : List (String × String)) (ops : List Op)
    (order : List String) : List (String × List EndpointInfo) :=
  (groupBuckets globalTags ops order).filter (fun p => !p.2.isEmpty)

/-!
Concrete values used by the claim theorems, their witnesses and
counterexamples, plus the spec-side ordering model for claim C2.
-/

/-- A bare integer schema `{'type': 'integer'}`. -/
def intSchema : Schema := .mk (some "integer") none none none none false

/-- A primitive property schema with a description:
`{'type': 'integer', 'description': 'An id'}`. -/
def describedInt : Schema := .mk (some "integer") none none none (some "An id") false

/-- A bare string schema `{'type': 'string'}`. -/
def strSchema : Schema := .mk (some "string") none none none none false

/-- `{'type': 'array', 'items': {'type': 'string'}}`. -/
def arrOfString : Schema := .mk (some "array") none none (some strSchema) none false

/-- The object item schema of scenario C:
`{'type': 'object', 'properties': {'x': {'type': 'integer'}}}`. -/
def c3items : Schema := .mk (some "object") (some [("x", intSchema)]) none none none false

/-- The scenario C schema:
`{'type': 'array', 'items': {'type': 'object', 'properties': {'x': {'type': 'integer'}}}}`. -/
def c3schema : Schema := .mk (some "array") none none (some c3items) none false

/-- An array schema with no `items` key: `{'type': 'array'}`. -/
def arrayWithoutItems : Schema := .mk (some "array") none none none none false

/-- An object schema with no `properties` key: `{'type': 'object'}`. -/
def objectWithoutProperties : Schema := .mk (some "object") none none none none false

/-- The empty schema dictionary `{}` (falsy in Python). -/
def emptySchemaDict : Schema := .mk none none none none none false

/-- Two operations tagged `a` and `b` respectively, in that input order. -/
def c2ops : List Op :=
  [⟨"/a", "get", "", "", ["a"]⟩, ⟨"/b", "get", "", "", ["b"]⟩]

/-- One operation explicitly tagged `Uncategorized`, one untagged operation. -/
def c9ops : List Op :=
  [⟨"/x", "get", "", "", ["Uncategorized"]⟩, ⟨"/y", "get", "", "", []⟩]

/-- A single operation explicitly tagged `Uncategorized` (none untagged). -/
def c4ops : List Op := [⟨"/x", "get", "", "", ["Uncategorized"]⟩]

/-- One operation tagged with the declared tag `Pets`. -/
def opPets : Op := ⟨"/pets", "get", "List pets", "", ["Pets"]⟩

/-- An untagged operation. -/
def opPlain : Op := ⟨"/plain", "post", "Plain", "", []⟩

/-- First-seen deduplication of a list, keeping the first occurrence of each
element: the order the spec's words ascribe to the endpoint-only tags. -/
def firstSeen (l : List String) : List String :=
  l.foldl (fun acc x => if acc.contains x then acc else acc ++ [x]) []

/-- Modelled from the spec's words for claim C2 (not from the source): the
category sequence with the endpoint-only tags in first-seen order of
appearance over the operations, to be compared against `extract_tags`. -/
def extract_tags_firstSeen (globalTags : List (String × String)) (ops : List Op) :
    List (String × String) :=
  let g := dictOfPairs globalTags
  g ++ ((firstSeen (allEndpointTags ops)).filter
        (fun n => !(g.any (fun p => p.1 == n)))).map (fun n => (n, "")) ++
    (if hasUntagged ops then [(uncategorizedName, uncategorizedDescription)] else [])

/-!
Claim theorems.  Each claim of CLAIMS.json gets one theorem (plus, where
needed, a witness instance or a counterexample at concrete inputs), preceded
by the helper lemmas the proofs share.
-/

/-- Joining a one-element list is the element itself. -/
theorem intercalate_singleton (s x : String) : String.intercalate s [x] = x := rfl

/-- Claim C7: for an absent (`None`) or empty schema input,
`format_schema_as_json` returns exactly the literal text `"{}"`, at every
indent level. -/
theorem c7_empty_or_absent_schema_renders_empty_braces (l : Nat) :
    format_schema_as_json none l = "\x7b\x7d" ∧
    format_schema_as_json (some emptySchemaDict) l = "\x7b\x7d" := by
  constructor
  · rfl
  · simp [format_schema_as_json, formatSchemaCore, emptySchemaDict, Schema.isEmptyDict]

/-- Counterexample to claim C1: the schema `{'type': 'array'}` (an array node
with no `items` key) renders as `"(array)"`, which is neither of the claimed
placeholders `"(any)"` and `"{}"`; likewise `{'type': 'object'}` with no
`properties` key renders `"(object)"`. -/
theorem c1_counterexample :
    format_schema_as_json (some arrayWithoutItems) 0 = "(array)" ∧
    format_schema_as_json (some objectWithoutProperties) 0 = "(object)" ∧
    ¬(format_schema_as_json (some arrayWithoutItems) 0 = "(any)" ∨
      format_schema_as_json (some arrayWithoutItems) 0 = "\x7b\x7d") := by
  have ha : format_schema_as_json (some arrayWithoutItems) 0 = "(array)" := by
    simp [format_schema_as_json, formatSchemaCore, formatResult, arrayWithoutItems,
      Schema.isEmptyDict, intercalate_singleton]
  have hb : format_schema_as_json (some objectWithoutProperties) 0 = "(object)" := by
    simp [format_schema_as_json, formatSchemaCore, formatResult, objectWithoutProperties,
      Schema.isEmptyDict, intercalate_singleton]
  refine ⟨ha, hb, ?_⟩
  rw [ha]
  decide

/-- Claim C1, amended: on an array node whose `items` key is absent or an
object node whose `properties` key is absent, `format_schema_as_json` never
fails, but the result is the generic type literal — `"(array)"` respectively
`"(object)"` — not the `"(any)"` or `"{}"` placeholders (those arise for a
node with no `type` key and for an absent/empty schema). -/
theorem c1_amended_partial_nodes_render_type_literal
    (p? : Option (List (String × Schema))) (r? : Option (List String))
    (i? : Option Schema) (d? : Option String) (e e2 : Bool) (l : Nat) :
    format_schema_as_json (some (Schema.mk (some "array") p? r? none d? e)) l = "(array)" ∧
    format_schema_as_json (some (Schema.mk (some "object") none r? i? d? e2)) l = "(object)" := by
  constructor
  · cases p? <;>
      simp [format_schema_as_json, formatSchemaCore, formatResult, Schema.isEmptyDict,
        intercalate_singleton]
  · cases i? <;>
      simp [format_schema_as_json, formatSchemaCore, formatResult, Schema.isEmptyDict,
        intercalate_singleton]

/-- Counterexample to claim C3: rendering
`{type: array, items: {type: object, properties: {x: {type: integer}}}}` at
indent level 0 yields `[`, `  {`, `  "x": (integer)`, `}`, `]` — the closing
brace of the object block sits at the same indent level as the surrounding
brackets, not one level deeper as the claim requires (which would be the
second string below). -/
theorem c3_counterexample :
    format_schema_as_json (some c3schema) 0 = "[\n  \x7b\n  \"x\": (integer)\n\x7d\n]" ∧
    format_schema_as_json (some c3schema) 0 ≠ "[\n  \x7b\n    \"x\": (integer)\n  \x7d\n]" := by
  have ha : format_schema_as_json (some c3schema) 0 = "[\n  \x7b\n  \"x\": (integer)\n\x7d\n]" := by
    simp [format_schema_as_json, formatSchemaCore, formatResult, arrayBlock, propLines, propLine,
      primProp, addCommas, _indent, Schema.isEmptyDict, Schema.type?, Schema.properties?,
      Schema.items?, Schema.required?, Schema.description?, c3schema, c3items, intSchema]
    rfl
  refine ⟨ha, ?_⟩
  rw [ha]
  decide

/-- Claim C3, amended: for the scenario C schema at indent level 0, the object
block is rendered inline inside `[` and `]`, but the recursive call happens at
the *bracket's own* indent level: only the opening line of the block receives
an extra one-level prefix, so its property lines end up one level deeper than
the brackets while its closing brace sits at the same level as the brackets. -/
theorem c3_amended_object_block_inline_at_bracket_level :
    format_schema_as_json (some c3schema) 0 =
      "[\n" ++ _indent 1 ++ formatSchemaCore c3items 0 ++ "\n" ++ _indent 0 ++ "]" ∧
    formatSchemaCore c3items 0 =
      "\x7b\n" ++ _indent 1 ++ "\"x\": (integer)" ++ "\n" ++ _indent 0 ++ "\x7d" := by
  have hb : formatSchemaCore c3items 0 =
      "\x7b\n" ++ _indent 1 ++ "\"x\": (integer)" ++ "\n" ++ _indent 0 ++ "\x7d" := by
    simp [formatSchemaCore, formatResult, propLines, propLine, primProp, addCommas, _indent,
      Schema.isEmptyDict, Schema.type?, Schema.properties?, Schema.items?, Schema.description?,
      c3items, intSchema]
    rfl
  refine ⟨?_, hb⟩
  simp [format_schema_as_json, formatSchemaCore, formatResult, arrayBlock,
    Schema.isEmptyDict, Schema.type?, c3schema, c3items]
  rfl

/-- Claim C5: a primitive-typed property (type neither `object` nor `array`)
with a non-empty description that is listed in the enclosing object's
`required` set renders its value exactly as `(type) // description *` —
type annotation, then comment, then required marker, in that fixed order. -/
theorem c5_primitive_required_described_order (l : Nat) (required : List String)
    (name t d : String) (psch : Schema)
    (ht : psch.type? = some t) (hto : t ≠ "object") (hta : t ≠ "array")
    (hd : psch.description? = some d) (hdne : d ≠ "")
    (hreq : required.contains name = true) :
    propLine l required name psch =
      _indent (l + 1) ++ "\"" ++ name ++ "\": " ++
        ("(" ++ t ++ ")" ++ (" // " ++ d) ++ " *") := by
  obtain ⟨t?, p?, r?, i?, d?, e⟩ := psch
  simp [Schema.type?] at ht
  simp [Schema.description?] at hd
  subst ht
  subst hd
  have hmem : name ∈ required := by simpa using hreq
  rcases i? with _ | it <;>
    simp [propLine, primProp, Schema.type?, Schema.properties?, Schema.items?,
      Schema.description?, hto, hta, hdne, hmem]

/-- Witness for claim C5 at a concrete input: the required, described integer
property `id` renders as `"id": (integer) // An id *`. -/
theorem c5_witness :
    propLine 0 ["id"] "id" describedInt =
      _indent 1 ++ "\"" ++ "id" ++ "\": " ++
        ("(" ++ "integer" ++ ")" ++ (" // " ++ "An id") ++ " *") :=
  c5_primitive_required_described_order 0 ["id"] "id" "integer" "An id" describedInt
    rfl (by decide) (by decide) rfl (by decide) (by decide)

/-- Claim C10: a property whose own schema is a nested object (`type` equal to
`object` with `properties` present) or an array (`type` equal to `array` with
`items` present) is rendered identically whatever its `description` entry and
whether or not it occurs in the enclosing object's `required` set: the
`// description` comment and the trailing `*` marker are emitted only on the
primitive/unknown property branch. -/
theorem c10_nested_property_ignores_description_and_required (l : Nat)
    (required : List String) (name : String) (d : String) (psch : Schema)
    (h : (psch.type? = some "object" ∧ (psch.properties?).isSome = true) ∨
         (psch.type? = some "array" ∧ (psch.items?).isSome = true)) :
    propLine l required name (psch.setDescription (some d)) =
      propLine l [] name (psch.setDescription none) := by
  obtain ⟨t?, p?, r?, i?, d?, e⟩ := psch
  rcases h with ⟨ht, hp⟩ | ⟨ht, hi⟩
  · simp [Schema.type?] at ht
    subst ht
    simp [Schema.properties?, Option.isSome_iff_exists] at hp
    obtain ⟨ps, rfl⟩ := hp
    simp [propLine, Schema.setDescription, Schema.type?, Schema.properties?,
      formatSchemaCore, formatResult.eq_def, Schema.isEmptyDict]
  · simp [Schema.type?] at ht
    subst ht
    simp [Schema.items?, Option.isSome_iff_exists] at hi
    obtain ⟨items, rfl⟩ := hi
    cases p? <;>
      simp [propLine, Schema.setDescription, Schema.type?, Schema.properties?, Schema.items?]

/-- Witness for claim C10 at a concrete input: an array-of-string property is
rendered the same with a description and required marker as without. -/
theorem c10_witness :
    propLine 0 ["a"] "a" (arrOfString.setDescription (some "doc")) =
      propLine 0 [] "a" (arrOfString.setDescription none) :=
  c10_nested_property_ignores_description_and_required 0 ["a"] "a" "doc" arrOfString
    (Or.inr ⟨rfl, rfl⟩)

/-- The property loop is a map over the declared property list. -/
theorem propLines_eq_map (l : Nat) (required : List String) :
    ∀ ps : List (String × Schema),
      propLines l required ps = ps.map (fun p => propLine l required p.1 p.2)
  | [] => by simp [propLines]
  | (name, psch) :: rest => by
    simp [propLines, propLines_eq_map l required rest]

/-- Element-wise description of the comma decoration: every line gets a
trailing comma except the last. -/
theorem addCommas_getD : ∀ (xs : List String) (i : Nat),
    (addCommas xs).getD i "" =
      if i + 1 < xs.length then xs.getD i "" ++ "," else xs.getD i ""
  | [], i => by simp [addCommas]
  | [x], i => by cases i <;> simp [addCommas]
  | x :: y :: rest, 0 => by simp [addCommas]
  | x :: y :: rest, i + 1 => by
    have ih := addCommas_getD (y :: rest) i
    simpa [addCommas, Nat.add_lt_add_iff_right] using ih

/-- Claim C6: an object schema with properties renders as a brace-delimited
block whose lines are, in exactly the declared order of the input properties
mapping, one rendered line per property (each beginning with the indent of
level `l+1` and the quoted property name), with a trailing comma on every
property line except the last, and the closing brace at indent level `l`. -/
theorem c6_object_properties_order_commas_brace (ps : List (String × Schema))
    (r? : Option (List String)) (i? : Option Schema) (d? : Option String)
    (e : Bool) (l : Nat) :
    format_schema_as_json (some (Schema.mk (some "object") (some ps) r? i? d? e)) l =
      String.intercalate "\n"
        ("\x7b" :: (addCommas (ps.map (fun p => propLine l ((r?).getD []) p.1 p.2)) ++
          [_indent l ++ "\x7d"])) ∧
    (∀ p ∈ ps, ∃ rest,
      propLine l ((r?).getD []) p.1 p.2 =
        _indent (l + 1) ++ "\"" ++ p.1 ++ "\": " ++ rest) ∧
    (∀ i : Nat,
      (addCommas (ps.map (fun p => propLine l ((r?).getD []) p.1 p.2))).getD i "" =
        if i + 1 < ps.length then
          (ps.map (fun p => propLine l ((r?).getD []) p.1 p.2)).getD i "" ++ ","
        else
          (ps.map (fun p => propLine l ((r?).getD []) p.1 p.2)).getD i "") := by
  refine ⟨?_, ?_, ?_⟩
  · simp [format_schema_as_json, formatSchemaCore, formatResult.eq_def, Schema.isEmptyDict,
      propLines_eq_map]
  · intro p hp
    obtain ⟨name, psch⟩ := p
    obtain ⟨t?, pp, rr, ii, dd, ee⟩ := psch
    simp only [propLine, primProp]
    repeat' split
    all_goals exact ⟨_, rfl⟩
  · intro i
    simpa using addCommas_getD (ps.map (fun p => propLine l ((r?).getD []) p.1 p.2)) i

/-- Witness for claim C6 at a concrete input: the single integer property
`id` of a concrete object schema yields a line starting with the indented,
quoted key. -/
theorem c6_witness :
    ∃ rest, propLine 0 [] "id" intSchema = _indent 1 ++ "\"" ++ "id" ++ "\": " ++ rest :=
  (c6_object_properties_order_commas_brace [("id", intSchema)] none none none false 0).2.1
    ("id", intSchema) (by simp)

/-- `d.any (p.1 == k)` detects key membership. -/
theorem anyKey_iff {α : Type} (d : List (String × α)) (k : String) :
    (d.any (fun p => p.1 == k)) = true ↔ k ∈ d.map Prod.fst := by
  simp [List.any_eq_true]

/-- One step of the value-replacing map used by `dictSet`. -/
theorem keyReplace_cons {α : Type} (x : String) (w : α)
    (rest : List (String × α)) (a : String) (v : α) :
    ((x, w) :: rest).map (fun p => if p.1 == a then (a, v) else p) =
      (if x = a then (a, v) else (x, w)) ::
        rest.map (fun p => if p.1 == a then (a, v) else p) := by
  by_cases h : x = a <;> simp [h]

/-- Replacing the value at a key leaves the key sequence unchanged. -/
theorem mapfst_keyReplace {α : Type} (d : List (String × α)) (k : String) (v : α) :
    (d.map (fun p => if p.1 == k then (k, v) else p)).map Prod.fst = d.map Prod.fst := by
  induction d with
  | nil => rfl
  | cons p rest ih =>
    obtain ⟨x, w⟩ := p
    rw [keyReplace_cons, List.map_cons, List.map_cons, ih]
    by_cases h : x = k
    · subst h
      simp
    · simp [h]

/-- Key membership after a dict assignment. -/
theorem dictSet_keys_mem {α : Type} (d : List (String × α)) (a : String) (v : α)
    (k : String) :
    k ∈ (dictSet d a v).map Prod.fst ↔ (k = a ∨ k ∈ d.map Prod.fst) := by
  unfold dictSet
  by_cases h : (d.any (fun p => p.1 == a)) = true
  · rw [if_pos h, mapfst_keyReplace]
    have ha : a ∈ d.map Prod.fst := (anyKey_iff d a).mp h
    constructor
    · exact Or.inr
    · rintro (rfl | hk)
      · exact ha
      · exact hk
  · rw [if_neg h]
    simp [or_comm]

/-- Dict assignment preserves distinctness of the keys. -/
theorem dictSet_keys_nodup {α : Type} (d : List (String × α)) (a : String) (v : α)
    (h : (d.map Prod.fst).Nodup) : ((dictSet d a v).map Prod.fst).Nodup := by
  unfold dictSet
  by_cases hh : (d.any (fun p => p.1 == a)) = true
  · rw [if_pos hh, mapfst_keyReplace]
    exact h
  · rw [if_neg hh]
    have ha : a ∉ d.map Prod.fst := fun hc => hh ((anyKey_iff d a).mpr hc)
    simp [List.nodup_append, h, ha]

/-- Unfolding lookup over a cons cell, with the key test as an equation. -/
theorem lookupB_cons {α : Type} (x : String) (w : α) (rest : List (String × α))
    (k : String) :
    lookupB ((x, w) :: rest) k = if x = k then some w else lookupB rest k := by
  by_cases h : x = k <;> simp [lookupB, h]

/-- Value lookup after replacing the value stored at key `a`. -/
theorem lookupB_keyReplace {α : Type} (d : List (String × α)) (a k : String) (v : α) :
    lookupB (d.map (fun p => if p.1 == a then (a, v) else p)) k =
      if a = k then (lookupB d k).map (fun _ => v) else lookupB d k := by
  induction d with
  | nil => simp [lookupB]
  | cons p rest ih =>
    obtain ⟨x, w⟩ := p
    rw [keyReplace_cons]
    by_cases hx : x = a
    · subst hx
      rw [if_pos rfl, lookupB_cons, lookupB_cons]
      by_cases hk : x = k
      · subst hk
        simp
      · rw [if_neg hk, if_neg hk, ih, if_neg hk, if_neg hk]
    · rw [if_neg hx, lookupB_cons, lookupB_cons]
      by_cases hxk : x = k
      · subst hxk
        rw [if_pos rfl, if_pos rfl, if_neg (fun hh => hx hh.symm)]
      · rw [if_neg hxk, if_neg hxk, ih]

/-- A key that is absent from an association list looks up to `none`. -/
theorem lookupB_eq_none_iff {α : Type} (d : List (String × α)) (k : String) :
    lookupB d k = none ↔ k ∉ d.map Prod.fst := by
  induction d with
  | nil => simp [lookupB]
  | cons p rest ih =>
    obtain ⟨a, w⟩ := p
    rw [lookupB_cons]
    by_cases h : a = k
    · subst h
      simp
    · have h2 : ¬(k = a) := fun hh => h hh.symm
      simp [h, h2, ih]

/-- Lookup distributes over list append, preferring the left part. -/
theorem lookupB_append {α : Type} (d1 d2 : List (String × α)) (k : String) :
    lookupB (d1 ++ d2) k =
      match lookupB d1 k with
      | some v => some v
      | none => lookupB d2 k := by
  induction d1 with
  | nil => simp [lookupB]
  | cons p rest ih =>
    obtain ⟨a, w⟩ := p
    rw [List.cons_append, lookupB_cons, lookupB_cons]
    by_cases h : a = k
    · rw [if_pos h, if_pos h]
    · rw [if_neg h, if_neg h, ih]

/-- Lookup after a dict assignment: the assigned key yields the new value,
every other key is unaffected. -/
theorem lookupB_dictSet {α : Type} (d : List (String × α)) (a k : String) (v : α) :
    lookupB (dictSet d a v) k = if a = k then some v else lookupB d k := by
  unfold dictSet
  by_cases h : (d.any (fun p => p.1 == a)) = true
  · rw [if_pos h, lookupB_keyReplace]
    by_cases hak : a = k
    · subst hak
      have ha : a ∈ d.map Prod.fst := (anyKey_iff d a).mp h
      cases hl : lookupB d a with
      | none => exact absurd ((lookupB_eq_none_iff d a).mp hl) (by simpa using ha)
      | some w => simp [hl]
    · simp [hak]
  · rw [if_neg h, lookupB_append]
    by_cases hak : a = k
    · subst hak
      have ha : a ∉ d.map Prod.fst := fun hc => h ((anyKey_iff d a).mpr hc)
      rw [(lookupB_eq_none_iff d a).mpr ha]
      simp [lookupB]
    · cases hl : lookupB d k with
      | none => simp [lookupB, hak, hl]
      | some w => simp [lookupB, hak, hl]

/-- Key membership after folding dict assignments over a pair list. -/
theorem foldl_dictSet_keys_mem :
    ∀ (g : List (String × String)) (d : List (String × String)) (k : String),
      k ∈ ((g.foldl (fun d p => dictSet d p.1 p.2) d).map Prod.fst) ↔
        (k ∈ d.map Prod.fst ∨ k ∈ g.map Prod.fst)
  | [], d, k => by simp
  | p :: rest, d, k => by
    obtain ⟨a, b⟩ := p
    simp only [List.foldl_cons]
    rw [foldl_dictSet_keys_mem rest (dictSet d a b) k, dictSet_keys_mem]
    simp only [List.map_cons, List.mem_cons]
    tauto

/-- The keys of the declared-tag dict are exactly the declared names. -/
theorem dictOfPairs_keys_mem (g : List (String × String)) (k : String) :
    k ∈ (dictOfPairs g).map Prod.fst ↔ k ∈ g.map Prod.fst := by
  unfold dictOfPairs
  rw [foldl_dictSet_keys_mem]
  simp

/-- Folding dict assignments preserves distinctness of the keys. -/
theorem foldl_dictSet_keys_nodup :
    ∀ (g : List (String × String)) (d : List (String × String)),
      (d.map Prod.fst).Nodup → ((g.foldl (fun d p => dictSet d p.1 p.2) d).map Prod.fst).Nodup
  | [], d, h => h
  | p :: rest, d, h => by
    simp only [List.foldl_cons]
    exact foldl_dictSet_keys_nodup rest (dictSet d p.1 p.2) (dictSet_keys_nodup d p.1 p.2 h)

/-- The declared-tag dict has pairwise distinct keys. -/
theorem dictOfPairs_keys_nodup (g : List (String × String)) :
    ((dictOfPairs g).map Prod.fst).Nodup :=
  foldl_dictSet_keys_nodup g [] (by simp)

/-- Lookup after the bucket-initialisation fold: every listed name holds an
empty bucket, other keys are untouched. -/
theorem lookupB_foldl_init :
    ∀ (names : List String) (d : List (String × List EndpointInfo)) (k : String),
      lookupB (names.foldl (fun b n => dictSet b n []) d) k =
        if k ∈ names then some [] else lookupB d k
  | [], d, k => by simp
  | n :: rest, d, k => by
    simp only [List.foldl_cons]
    rw [lookupB_foldl_init rest (dictSet d n []) k, lookupB_dictSet]
    by_cases hr : k ∈ rest
    · simp [hr]
    · by_cases hn : n = k
      · subst hn
        simp [hr]
      · have h2 : ¬(k = n) := fun hh => hn hh.symm
        simp [hr, hn, h2]

/-- Lookup in the initial buckets of `organize_endpoints_by_tag`. -/
theorem lookupB_initBuckets (names : List String) (k : String) :
    lookupB (initBuckets names) k = if k ∈ names then some [] else none := by
  unfold initBuckets
  rw [lookupB_foldl_init]
  rfl

/-- The initial buckets have pairwise distinct keys. -/
theorem initBuckets_keys_nodup (names : List String) :
    ((initBuckets names).map Prod.fst).Nodup := by
  unfold initBuckets
  have h : ∀ (ns : List String) (d : List (String × List EndpointInfo)),
      (d.map Prod.fst).Nodup →
      ((ns.foldl (fun b n => dictSet b n []) d).map Prod.fst).Nodup := by
    intro ns
    induction ns with
    | nil => intro d h; exact h
    | cons n rest ih =>
      intro d hd
      simp only [List.foldl_cons]
      exact ih (dictSet d n []) (dictSet_keys_nodup d n [] hd)
  exact h names [] (by simp)

/-- Appending to a bucket changes no key. -/
theorem keys_bucketAppend (b : List (String × List EndpointInfo)) (kk : String)
    (e : EndpointInfo) : (bucketAppend b kk e).map Prod.fst = b.map Prod.fst := by
  induction b with
  | nil => rfl
  | cons p rest ih =>
    obtain ⟨a, w⟩ := p
    have hcons : bucketAppend ((a, w) :: rest) kk e =
        (if a = kk then (a, w ++ [e]) else (a, w)) :: bucketAppend rest kk e := by
      by_cases h : a = kk <;> simp [bucketAppend, h]
    rw [hcons, List.map_cons, List.map_cons, ih]
    by_cases h : a = kk <;> simp [h]

/-- Lookup after appending one element to a bucket. -/
theorem lookupB_bucketAppend (b : List (String × List EndpointInfo)) (kk k : String)
    (e : EndpointInfo) :
    lookupB (bucketAppend b kk e) k =
      if kk = k then (lookupB b k).map (fun l => l ++ [e]) else lookupB b k := by
  induction b with
  | nil => simp [bucketAppend, lookupB]
  | cons p rest ih =>
    obtain ⟨a, w⟩ := p
    have hcons : bucketAppend ((a, w) :: rest) kk e =
        (if a = kk then (a, w ++ [e]) else (a, w)) :: bucketAppend rest kk e := by
      by_cases h : a = kk <;> simp [bucketAppend, h]
    rw [hcons]
    by_cases hak : a = kk <;> by_cases hk : a = k
    · have h1 : kk = k := by rw [← hak]; exact hk
      simp [lookupB_cons, hak, hk, h1]
    · have h2 : ¬(kk = k) := fun hh => hk (hak.trans hh)
      simp [lookupB_cons, hak, hk, h2, ih]
    · have h3 : ¬(kk = k) := fun hh => hak (hk.trans hh.symm)
      have h4 : ¬(k = kk) := fun hh => h3 hh.symm
      simp [lookupB_cons, hak, hk, h3, h4, ih]
    · simp [lookupB_cons, hak, hk, ih]

/-- Unfolding `allEndpointTags` over a cons cell. -/
theorem allEndpointTags_cons (o : Op) (rest : List Op) :
    allEndpointTags (o :: rest) = o.tags ++ allEndpointTags rest := rfl

/-- Folding bucket appends over a tag list changes no key. -/
theorem keys_tagsFold (e : EndpointInfo) :
    ∀ (tags : List String) (b : List (String × List EndpointInfo)),
      ((tags.foldl (fun b t => bucketAppend b t e) b).map Prod.fst) = b.map Prod.fst
  | [], b => rfl
  | t :: rest, b => by
    simp only [List.foldl_cons]
    rw [keys_tagsFold e rest (bucketAppend b t e), keys_bucketAppend]

/-- Folding bucket appends over a tag list not containing `k` does not change
the bucket stored at `k`. -/
theorem lookupB_tagsFold (e : EndpointInfo) :
    ∀ (tags : List String) (b : List (String × List EndpointInfo)) (k : String),
      k ∉ tags →
      lookupB (tags.foldl (fun b t => bucketAppend b t e) b) k = lookupB b k
  | [], b, k, _ => rfl
  | t :: rest, b, k, h => by
    have ht : ¬(t = k) := fun hh => h (by simp [hh.symm])
    have hrest : k ∉ rest := fun hh => h (by simp [hh])
    simp only [List.foldl_cons]
    rw [lookupB_tagsFold e rest (bucketAppend b t e) k hrest, lookupB_bucketAppend,
      if_neg ht]

/-- The grouping fold of `organize_endpoints_by_tag` changes no key. -/
theorem keys_groupFold :
    ∀ (ops : List Op) (b : List (String × List EndpointInfo)),
      ((ops.foldl
        (fun b o =>
          if o.tags.isEmpty then bucketAppend b uncategorizedName o.info
          else o.tags.foldl (fun b t => bucketAppend b t o.info) b) b).map Prod.fst) =
        b.map Prod.fst
  | [], b => rfl
  | o :: rest, b => by
    simp only [List.foldl_cons]
    rw [keys_groupFold rest]
    by_cases h : o.tags.isEmpty
    · rw [if_pos h, keys_bucketAppend]
    · rw [if_neg h, keys_tagsFold]

/-- Running the grouping fold, the bucket at `Uncategorized` collects exactly
the untagged operations, in input order, provided no operation is explicitly
tagged `Uncategorized`. -/
theorem lookupB_groupFold :
    ∀ (ops : List Op) (b : List (String × List EndpointInfo)),
      uncategorizedName ∉ allEndpointTags ops →
      lookupB (ops.foldl
        (fun b o =>
          if o.tags.isEmpty then bucketAppend b uncategorizedName o.info
          else o.tags.foldl (fun b t => bucketAppend b t o.info) b) b) uncategorizedName =
        (lookupB b uncategorizedName).map
          (fun l => l ++ (ops.filter (fun o => o.tags.isEmpty)).map Op.info)
  | [], b, _ => by
    cases hl : lookupB b uncategorizedName <;> simp [hl]
  | o :: rest, b, h => by
    have hh := h
    rw [allEndpointTags_cons] at hh
    have ho : uncategorizedName ∉ o.tags := fun hc => hh (List.mem_append_left _ hc)
    have hrest : uncategorizedName ∉ allEndpointTags rest :=
      fun hc => hh (List.mem_append_right _ hc)
    simp only [List.foldl_cons]
    by_cases he : o.tags.isEmpty
    · rw [if_pos he, lookupB_groupFold rest _ hrest, lookupB_bucketAppend, if_pos rfl]
      cases hl : lookupB b uncategorizedName <;> simp [hl, he]
    · rw [if_neg he, lookupB_groupFold rest _ hrest, lookupB_tagsFold o.info o.tags b _ ho]
      simp [he]

/-- Filtering out the empty buckets turns an empty bucket into a missing key
and keeps every non-empty bucket, when keys are distinct. -/
theorem lookupB_filter_nonEmpty :
    ∀ (b : List (String × List EndpointInfo)) (k : String),
      ((b.map Prod.fst).Nodup) →
      lookupB (b.filter (fun p => !p.2.isEmpty)) k =
        (lookupB b k).bind (fun v => if v.isEmpty then none else some v)
  | [], k, _ => rfl
  | (a, v) :: rest, k, hnd => by
    have hnd2 : ((rest.map Prod.fst).Nodup) := by
      simp only [List.map_cons, List.nodup_cons] at hnd
      exact hnd.2
    have hna : a ∉ rest.map Prod.fst := by
      simp only [List.map_cons, List.nodup_cons] at hnd
      exact hnd.1
    have ih := lookupB_filter_nonEmpty rest k hnd2
    by_cases hv : v.isEmpty
    · have hdrop : ((a, v) :: rest).filter (fun p => !p.2.isEmpty) =
          rest.filter (fun p => !p.2.isEmpty) := by
        simp [List.filter_cons, hv]
      rw [hdrop, ih, lookupB_cons]
      by_cases hak : a = k
      · subst hak
        rw [(lookupB_eq_none_iff rest a).mpr hna]
        have hv2 : v = [] := by simpa using hv
        simp [hv2]
      · rw [if_neg hak]
    · have hkeep : ((a, v) :: rest).filter (fun p => !p.2.isEmpty) =
          (a, v) :: rest.filter (fun p => !p.2.isEmpty) := by
        simp [List.filter_cons, hv]
      rw [hkeep, lookupB_cons, lookupB_cons]
      by_cases hak : a = k
      · rw [if_pos hak, if_pos hak]
        have hv2 : ¬(v = []) := by simpa using hv
        simp [hv2]
      · rw [if_neg hak, if_neg hak, ih]

/-- Counterexample to claim C2: with operations tagged `a` then `b` (so the
first-seen order is `a`, `b`) and no declared categories, the set-iteration
order `["b", "a"]` is a legitimate enumeration of the endpoint-tag set, and
under it `extract_tags` emits `b` before `a`, not the first-seen order. -/
theorem c2_counterexample :
    validOrder ["b", "a"] c2ops ∧
    extract_tags [] c2ops ["b", "a"] ≠ extract_tags_firstSeen [] c2ops := by
  refine ⟨by decide, by decide⟩

/-- Claim C2, amended: for every document and every legitimate iteration order
of the endpoint-tag set, `extract_tags` yields the declared categories first
(as an insertion-ordered dict, with their declared descriptions), then the
undeclared endpoint tags — each exactly once, with an empty description, but
in the unspecified set-iteration order rather than necessarily first-seen
order — then the synthetic `Uncategorized` entry when some operation is
untagged. -/
theorem c2_amended_endpoint_tags_in_set_order (globalTags : List (String × String))
    (ops : List Op) (order : List String) (h : validOrder order ops) :
    ∃ mid : List (String × String),
      extract_tags globalTags ops order =
        dictOfPairs globalTags ++ mid ++
          (if hasUntagged ops then [(uncategorizedName, uncategorizedDescription)]
           else []) ∧
      (∀ p ∈ mid, p.2 = "") ∧
      ((mid.map Prod.fst).Nodup) ∧
      (∀ n, n ∈ mid.map Prod.fst ↔
        (n ∈ allEndpointTags ops ∧ n ∉ globalTags.map Prod.fst)) := by
  refine ⟨(order.filter
      (fun n => !((dictOfPairs globalTags).any (fun p => p.1 == n)))).map
      (fun n => (n, "")), rfl, ?_, ?_, ?_⟩
  · intro p hp
    obtain ⟨n, _, rfl⟩ := List.mem_map.mp hp
    rfl
  · rw [List.map_map]
    have hid : (Prod.fst ∘ fun n : String => (n, "")) = id := rfl
    rw [hid, List.map_id]
    exact h.1.filter _
  · intro n
    rw [List.map_map]
    have h2 : ∀ m : String,
        (!((dictOfPairs globalTags).any (fun p => p.1 == m))) = true ↔
          m ∉ globalTags.map Prod.fst := by
      intro m
      rw [Bool.not_eq_true', ← Bool.not_eq_true, not_iff_not, anyKey_iff,
        dictOfPairs_keys_mem]
    constructor
    · intro hn
      obtain ⟨m, hm, hmn⟩ := List.mem_map.mp hn
      obtain ⟨hmo, hmf⟩ := List.mem_filter.mp hm
      have : m = n := hmn
      subst this
      exact ⟨h.2.1 m hmo, (h2 m).mp hmf⟩
    · rintro ⟨hn1, hn2⟩
      exact List.mem_map.mpr ⟨n,
        List.mem_filter.mpr ⟨h.2.2 n hn1, (h2 n).mpr hn2⟩, rfl⟩

/-- Witness for (amended) claim C2 at a concrete input. -/
theorem c2_witness :
    ∃ mid : List (String × String),
      extract_tags [] c2ops ["b", "a"] =
        dictOfPairs [] ++ mid ++
          (if hasUntagged c2ops then [(uncategorizedName, uncategorizedDescription)]
           else []) ∧
      (∀ p ∈ mid, p.2 = "") ∧
      ((mid.map Prod.fst).Nodup) ∧
      (∀ n, n ∈ mid.map Prod.fst ↔
        (n ∈ allEndpointTags c2ops ∧ n ∉ ([] : List (String × String)).map Prod.fst)) :=
  c2_amended_endpoint_tags_in_set_order [] c2ops ["b", "a"] (by decide)

/-- Counterexample to claim C9: when one operation is explicitly tagged
`Uncategorized` and another has no tags, `extract_tags` emits two entries
named `Uncategorized` — the category names are not pairwise distinct. -/
theorem c9_counterexample :
    validOrder [uncategorizedName] c9ops ∧
    ¬((extract_tags [] c9ops [uncategorizedName]).map Prod.fst).Nodup := by
  refine ⟨by decide, by decide⟩

/-- Claim C9, amended: the category names produced by `extract_tags` are
pairwise distinct provided that, whenever some operation is untagged,
`Uncategorized` is neither a declared category name nor an explicit tag of
any operation; in the excluded case the synthetic `Uncategorized` entry
duplicates the existing one. -/
theorem c9_amended_names_nodup_without_uncategorized_clash
    (globalTags : List (String × String)) (ops : List Op) (order : List String)
    (h : validOrder order ops)
    (hc : hasUntagged ops = true →
      uncategorizedName ∉ globalTags.map Prod.fst ∧
      uncategorizedName ∉ allEndpointTags ops) :
    ((extract_tags globalTags ops order).map Prod.fst).Nodup := by
  have h2 : ∀ m : String,
      (!((dictOfPairs globalTags).any (fun p => p.1 == m))) = true ↔
        m ∉ globalTags.map Prod.fst := by
    intro m
    rw [Bool.not_eq_true', ← Bool.not_eq_true, not_iff_not, anyKey_iff,
      dictOfPairs_keys_mem]
  have hKnd : ((dictOfPairs globalTags).map Prod.fst).Nodup := dictOfPairs_keys_nodup _
  have hMnd : ((order.filter
      (fun n => !((dictOfPairs globalTags).any (fun p => p.1 == n)))).Nodup) :=
    h.1.filter _
  have hKM : ∀ n, n ∈ (order.filter
      (fun n => !((dictOfPairs globalTags).any (fun p => p.1 == n)))) →
      n ∉ (dictOfPairs globalTags).map Prod.fst := by
    intro n hn
    have := (h2 n).mp ((List.mem_filter.mp hn).2)
    exact fun hc2 => this ((dictOfPairs_keys_mem globalTags n).mp hc2)
  simp only [extract_tags, List.map_append, List.map_map]
  have hid : (Prod.fst ∘ fun n : String => (n, "")) = id := rfl
  rw [hid, List.map_id]
  rw [List.nodup_append, List.nodup_append]
  refine ⟨⟨hKnd, hMnd, fun n hn hn2 => (hKM n hn2) hn⟩, ?_, ?_⟩
  · by_cases hu : hasUntagged ops = true
    · simp [hu]
    · simp [hu]
  · by_cases hu : hasUntagged ops = true
    · obtain ⟨hc1, hc2⟩ := hc hu
      intro n hn
      simp only [hu, if_pos, List.map_cons, List.map_nil]
      rcases List.mem_append.mp hn with hnK | hnM
      · have : n ∈ globalTags.map Prod.fst := (dictOfPairs_keys_mem globalTags n).mp hnK
        intro hmem
        simp only [List.mem_singleton] at hmem
        subst hmem
        exact hc1 this
      · have hord : n ∈ order := (List.mem_filter.mp hnM).1
        have : n ∈ allEndpointTags ops := h.2.1 n hord
        intro hmem
        simp only [List.mem_singleton] at hmem
        subst hmem
        exact hc2 this
    · simp [hu]

/-- Witness for (amended) claim C9 at a concrete input: a declared `Pets`
category, one `Pets` operation and one untagged operation give pairwise
distinct category names. -/
theorem c9_witness :
    ((extract_tags [("Pets", "Pet operations")] [opPets, opPlain] ["Pets"]).map
      Prod.fst).Nodup :=
  c9_amended_names_nodup_without_uncategorized_clash [("Pets", "Pet operations")]
    [opPets, opPlain] ["Pets"] (by decide) (by decide)

/-- Counterexample to claim C4: a single operation explicitly tagged
`Uncategorized` (and no untagged operation) makes the category set contain a
category named `Uncategorized` although no operation has an empty tag list —
the claimed equivalence fails — and the final `Uncategorized` bucket contains
that tagged operation rather than only untagged ones. -/
theorem c4_counterexample :
    validOrder [uncategorizedName] c4ops ∧
    uncategorizedName ∈ (extract_tags [] c4ops [uncategorizedName]).map Prod.fst ∧
    hasUntagged c4ops = false ∧
    lookupB (organize_endpoints_by_tag [] c4ops [uncategorizedName]) uncategorizedName =
      some [⟨"/x", "GET", "", ""⟩] := by
  refine ⟨by decide, by decide, by decide, by decide⟩

/-- Claim C4, amended: provided `Uncategorized` is neither a declared category
name nor an explicit tag of any operation, the category set contains an entry
named `Uncategorized` if and only if at least one operation has an empty tag
list; when it does, that entry carries the fixed constant description, and the
final grouping's `Uncategorized` bucket holds exactly the untagged operations,
in their original input order. -/
theorem c4_amended_uncategorized_iff_untagged (globalTags : List (String × String))
    (ops : List Op) (order : List String) (h : validOrder order ops)
    (hdecl : uncategorizedName ∉ globalTags.map Prod.fst)
    (htag : uncategorizedName ∉ allEndpointTags ops) :
    (uncategorizedName ∈ (extract_tags globalTags ops order).map Prod.fst ↔
      hasUntagged ops = true) ∧
    (hasUntagged ops = true →
      (uncategorizedName, uncategorizedDescription) ∈ extract_tags globalTags ops order) ∧
    (lookupB (organize_endpoints_by_tag globalTags ops order) uncategorizedName =
      if hasUntagged ops then
        some ((ops.filter (fun o => o.tags.isEmpty)).map Op.info)
      else none) := by
  have hK : uncategorizedName ∉ (dictOfPairs globalTags).map Prod.fst :=
    fun hc => hdecl ((dictOfPairs_keys_mem globalTags _).mp hc)
  have hM : uncategorizedName ∉ (order.filter
      (fun n => !((dictOfPairs globalTags).any (fun p => p.1 == n)))) := by
    intro hc
    exact htag (h.2.1 _ ((List.mem_filter.mp hc).1))
  have hpart1 : uncategorizedName ∈ (extract_tags globalTags ops order).map Prod.fst ↔
      hasUntagged ops = true := by
    simp only [extract_tags, List.map_append, List.map_map]
    have hid : (Prod.fst ∘ fun n : String => (n, "")) = id := rfl
    rw [hid, List.map_id]
    by_cases hu : hasUntagged ops = true
    · simp [hu]
    · simp [hu, hK, hM]
  refine ⟨hpart1, ?_, ?_⟩
  · intro hu
    simp [extract_tags, hu]
  · have hkeysGB : ((groupBuckets globalTags ops order).map Prod.fst).Nodup := by
      simp only [groupBuckets]
      rw [keys_groupFold ops _]
      exact initBuckets_keys_nodup _
    simp only [organize_endpoints_by_tag]
    rw [lookupB_filter_nonEmpty _ _ hkeysGB]
    simp only [groupBuckets]
    rw [lookupB_groupFold ops _ htag, lookupB_initBuckets]
    by_cases hu : hasUntagged ops = true
    · rw [if_pos (hpart1.mpr hu)]
      have hne : ((ops.filter (fun o => o.tags.isEmpty)).map Op.info) ≠ [] := by
        have hex : ∃ o, o ∈ ops ∧ o.tags.isEmpty = true := by
          simpa [hasUntagged, List.any_eq_true] using hu
        obtain ⟨o, ho, hoe⟩ := hex
        have hmem : o ∈ ops.filter (fun o => o.tags.isEmpty) :=
          List.mem_filter.mpr ⟨ho, hoe⟩
        intro hnil
        rw [List.map_eq_nil_iff] at hnil
        rw [hnil] at hmem
        simp at hmem
      simp [hu, hne]
    · rw [if_neg (fun hc => hu (hpart1.mp hc))]
      simp [hu]

/-- Witness for (amended) claim C4 at a concrete input: one `Pets` operation
and one untagged operation. -/
theorem c4_witness :
    (uncategorizedName ∈
        (extract_tags [("Pets", "Pet operations")] [opPets, opPlain] ["Pets"]).map
          Prod.fst ↔
      hasUntagged [opPets, opPlain] = true) ∧
    (hasUntagged [opPets, opPlain] = true →
      (uncategorizedName, uncategorizedDescription) ∈
        extract_tags [("Pets", "Pet operations")] [opPets, opPlain] ["Pets"]) ∧
    (lookupB (organize_endpoints_by_tag [("Pets", "Pet operations")] [opPets, opPlain]
        ["Pets"]) uncategorizedName =
      if hasUntagged [opPets, opPlain] then
        some (([opPets, opPlain].filter (fun o => o.tags.isEmpty)).map Op.info)
      else none) :=
  c4_amended_uncategorized_iff_untagged [("Pets", "Pet operations")] [opPets, opPlain]
    ["Pets"] (by decide) (by decide) (by decide)

/-- Claim C8: after grouping, every bucket left with zero operations is absent
from the returned mapping, and the returned mapping is a sublist of the
grouped buckets (the relative order of the remaining non-empty buckets is
preserved); every non-empty bucket is kept. -/
theorem c8_empty_buckets_removed_order_preserved (globalTags : List (String × String))
    (ops : List Op) (order : List String) :
    (∀ p ∈ organize_endpoints_by_tag globalTags ops order, p.2 ≠ []) ∧
    (organize_endpoints_by_tag globalTags ops order).Sublist
      (groupBuckets globalTags ops order) ∧
    (∀ p ∈ groupBuckets globalTags ops order, p.2 ≠ [] →
      p ∈ organize_endpoints_by_tag globalTags ops order) := by
  refine ⟨?_, ?_, ?_⟩
  · intro p hp
    simp only [organize_endpoints_by_tag] at hp
    have := (List.mem_filter.mp hp).2
    simpa using this
  · simp only [organize_endpoints_by_tag]
    exact List.filter_sublist _
  · intro p hp hne
    simp only [organize_endpoints_by_tag]
    exact List.mem_filter.mpr ⟨hp, by simpa using hne⟩

/-- Witness for claim C8 at a concrete input: the non-empty `Pets` bucket of a
grouped one-operation document is kept in the returned mapping. -/
theorem c8_witness :
    ("Pets", [Op.info opPets]) ∈ organize_endpoints_by_tag [("Pets", "")] [opPets] ["Pets"] :=
  (c8_empty_buckets_removed_order_preserved [("Pets", "")] [opPets] ["Pets"]).2.2
    ("Pets", [Op.info opPets]) (by decide) (by decide)
